import Mathlib

/-!
# Verification of the eslint-progress-bar runner

A shallow embedding of the argument-interpretation and batched-execution
pipeline of `eslint-progress-bar` (the runner module), together with
theorems settling the specification claims about it.

Command-line tokens are Lean `String`s; token lists are `List String`.
JavaScript numbers that can be `NaN` are modelled by `JsNum`; `null` is
modelled by `Option`; code that can throw is modelled with `Option` results.
External collaborators (the ESLint engine, globby, the progress widget,
`JSON.parse`, the spawned subprocess) are parameters: they appear as
function-valued fields of a platform record or as explicit arguments.
-/

/-- `s.startsWith(c)` for a single-character prefix: true iff the first
character of `s` is `c` (JS `String.prototype.startsWith` on a 1-char
argument). -/
def startsWithChar (s : String) (c : Char) : Bool :=
  match s.data with
  | [] => false
  | a :: _ => a == c

/-- JS `s.includes("=")`-style test for a single character. -/
def containsChar (s : String) (c : Char) : Bool :=
  s.data.contains c

/-- JS `arg.includes("=") ? arg.split("=")[0] : arg`: the substring of
`arg` before the first `=`, or `arg` itself when it has none. -/
def optionName (arg : String) : String :=
  if containsChar arg '=' then String.mk (arg.data.takeWhile (fun c => !(c == '='))) else arg

/-- A JavaScript number that is either an integer or `NaN` (the only
numeric values the runner produces: `parseInt(_, 10)` results). -/
inductive JsNum where
  | nan : JsNum
  | num (n : Int) : JsNum
deriving DecidableEq

/-- JS `>` comparison between a nonnegative count and a `JsNum` threshold:
any comparison with `NaN` is false. -/
def jsGtNum (a : Nat) : JsNum → Bool
  | .nan => false
  | .num m => (a : Int) > m

/-- Models the JS builtin `parseInt(s, 10)`: skip leading whitespace, an
optional sign, then the longest digit prefix; `NaN` when no digits. -/
def jsParseInt10 (s : String) : JsNum :=
  let cs := s.data.dropWhile Char.isWhitespace
  let signAndDigits : Bool × List Char :=
    match cs with
    | '-' :: rest => (true, rest)
    | '+' :: rest => (false, rest)
    | rest => (false, rest)
  let ds := signAndDigits.2.takeWhile Char.isDigit
  if ds.isEmpty then JsNum.nan
  else
    let v : Nat := ds.foldl (fun a c => a * 10 + (c.toNat - '0'.toNat)) 0
    JsNum.num (if signAndDigits.1 then -(v : Int) else (v : Int))

/-- `calculateExitCode` from the runner: 1 when there are errors, 1 when a
max-warnings threshold is set (non-null) and the warning count is strictly
greater than it, else 0. -/
def calculateExitCode (errorCount warningCount : Nat) (maxWarnings : Option JsNum) : Nat :=
  if errorCount > 0 then 1
  else if maxWarnings.any (fun m => jsGtNum warningCount m) then 1
  else 0

/-- `SUPPORTED_FLAGS` from the runner. -/
def SUPPORTED_FLAGS : List String :=
  ["--fix", "--fix-dry-run", "--cache", "--no-cache",
   "--no-error-on-unmatched-pattern"]

/-- `SUPPORTED_OPTIONS_WITH_VALUES` from the runner. -/
def SUPPORTED_OPTIONS_WITH_VALUES : List String :=
  ["-c", "--config", "--cache-location", "--cache-strategy",
   "--max-warnings", "-f", "--format", "--ext", "--rule"]

/-- The loop body of `findUnsupportedOptions`, carrying the `skipNext`
flag. Mirrors the source: a skipped token is consumed; a non-dash token is
ignored; a supported flag is ignored; a supported option-with-value not in
`=value` form sets `skipNext`; any other dash token's name is recorded and
`skipNext` is set when the next token exists and does not start with `-`. -/
def findUnsupportedOptionsAux : Bool → List String → List String
  | _, [] => []
  | true, _ :: rest => findUnsupportedOptionsAux false rest
  | false, arg :: rest =>
    if !(startsWithChar arg '-') then findUnsupportedOptionsAux false rest
    else
      let name := optionName arg
      if SUPPORTED_FLAGS.contains name then findUnsupportedOptionsAux false rest
      else if SUPPORTED_OPTIONS_WITH_VALUES.contains name then
        findUnsupportedOptionsAux (!(containsChar arg '=')) rest
      else
        name :: findUnsupportedOptionsAux
          (match rest with
           | next :: _ => !(startsWithChar next '-')
           | [] => false) rest

/-- `findUnsupportedOptions` from the runner (loop starts with
`skipNext = false`). -/
def findUnsupportedOptions (args : List String) : List String :=
  findUnsupportedOptionsAux false args

/-- Transcription of the claim's description of `findUnsupportedOptions`:
the option names of the dash-prefixed tokens whose names are outside both
vocabularies, in order of first occurrence; a supported option-with-value
not in `=value` form always consumes the following token; an unsupported
option consumes the following token exactly when it does not start with a
dash; consumed tokens are never flagged. -/
def unsupportedOptionsSpec : List String → List String
  | [] => []
  | [arg] =>
    if !(startsWithChar arg '-') then []
    else
      let name := optionName arg
      if SUPPORTED_FLAGS.contains name || SUPPORTED_OPTIONS_WITH_VALUES.contains name then []
      else [name]
  | arg :: next :: rest =>
    if !(startsWithChar arg '-') then unsupportedOptionsSpec (next :: rest)
    else
      let name := optionName arg
      if SUPPORTED_FLAGS.contains name then unsupportedOptionsSpec (next :: rest)
      else if SUPPORTED_OPTIONS_WITH_VALUES.contains name then
        if containsChar arg '=' then unsupportedOptionsSpec (next :: rest)
        else unsupportedOptionsSpec rest
      else
        if startsWithChar next '-' then name :: unsupportedOptionsSpec (next :: rest)
        else name :: unsupportedOptionsSpec rest

/-- The local `optionsWithValues` set of `extractPatterns`: the broader
vocabulary of value-taking options (including engine-internal ones). -/
def optionsWithValues : List String :=
  ["-c", "--config", "--env", "--ext", "-f", "--format",
   "--parser", "--parser-options", "--resolve-plugins-relative-to",
   "--rulesdir", "--plugin", "--rule", "-o", "--output-file",
   "--ignore-path", "--max-warnings", "--cache-location", "--cache-strategy"]

/-- The loop of `extractPatterns`, carrying the `skipNext` flag: skipped
tokens are consumed; a dash token in `optionsWithValues` sets `skipNext`;
other dash tokens are dropped; remaining tokens are patterns, in order. -/
def extractPatternsAux : Bool → List String → List String
  | _, [] => []
  | true, _ :: rest => extractPatternsAux false rest
  | false, arg :: rest =>
    if startsWithChar arg '-' then
      extractPatternsAux (optionsWithValues.contains arg) rest
    else
      arg :: extractPatternsAux false rest

/-- `extractPatterns` from the runner: the loop's patterns, or `["."]`
when none remain. -/
def extractPatterns (args : List String) : List String :=
  let patterns := extractPatternsAux false args
  if patterns.length > 0 then patterns else ["."]

/-- The final `skipNext` state after `extractPatternsAux` processes a
token list starting from state `b` (used to compose runs of the loop). -/
def extractSkipState : Bool → List String → Bool
  | b, [] => b
  | true, _ :: rest => extractSkipState false rest
  | false, arg :: rest =>
    if startsWithChar arg '-' then
      extractSkipState (optionsWithValues.contains arg) rest
    else
      extractSkipState false rest

/-- Abstract syntax of JSON values, the possible results of the external
`JSON.parse` builtin (whose parsing behaviour is a parameter `jp` below). -/
inductive JsonValue where
  | null : JsonValue
  | bool (b : Bool) : JsonValue
  | num (n : Int) : JsonValue
  | str (s : String) : JsonValue
  | arr (xs : List JsonValue) : JsonValue
  | obj (fields : List (String × JsonValue)) : JsonValue

/-- A rule's config value as produced by `parseRuleValue`: a parsed
structured literal, a raw string kept verbatim, or a numeric severity. -/
inductive RuleConfig where
  | json (v : JsonValue) : RuleConfig
  | str (s : String) : RuleConfig
  | num (n : Int) : RuleConfig

/-- The severity word map of `parseRuleValue`. -/
def severityMap (s : String) : Option Int :=
  if s == "off" then some 0
  else if s == "warn" then some 1
  else if s == "error" then some 2
  else none

/-- `parseRuleValue` from the runner, parameterised by the external
`JSON.parse` (`jp`; `none` models a parse failure/throw): split at the
first colon (`none` when there is no colon); a config string starting with
`[` is JSON-parsed, the raw string kept on failure; otherwise
off/warn/error map to 0/1/2, else `parseInt` base 10, else the raw
string. -/
def parseRuleValue (jp : String → Option JsonValue) (value : String) :
    Option (String × RuleConfig) :=
  if !(containsChar value ':') then none
  else
    let name := String.mk (value.data.takeWhile (fun c => !(c == ':')))
    let configStr := String.mk ((value.data.dropWhile (fun c => !(c == ':'))).tail)
    if startsWithChar configStr '[' then
      match jp configStr with
      | some v => some (name, RuleConfig.json v)
      | none => some (name, RuleConfig.str configStr)
    else
      match severityMap configStr with
      | some n => some (name, RuleConfig.num n)
      | none =>
        match jsParseInt10 configStr with
        | JsNum.num n => some (name, RuleConfig.num n)
        | JsNum.nan => some (name, RuleConfig.str configStr)

/-- `DEFAULT_EXTENSIONS` from the runner. -/
def DEFAULT_EXTENSIONS : List String :=
  [".js", ".jsx", ".ts", ".tsx", ".mjs", ".cjs", ".mts", ".cts"]

/-- The `--ext` value transform: split the token on commas and prefix each
entry with `.` unless it already starts with one
(`extArg.split(",").map(e => e.startsWith(".") ? e : "." + e)`). -/
def normalizeExtList (extArg : String) : List String :=
  (extArg.data.splitOn ',').map
    (fun cs => if startsWithChar (String.mk cs) '.' then String.mk cs else "." ++ String.mk cs)

/-- Assignment to a key of a JS object literal: replaces the value in
place when the key is present (insertion order kept), appends otherwise.
Models `rules[name] = config`. -/
def jsObjectSet (m : List (String × RuleConfig)) (k : String) (v : RuleConfig) :
    List (String × RuleConfig) :=
  if m.any (fun p => p.1 == k) then m.map (fun p => if p.1 == k then (k, v) else p)
  else m ++ [(k, v)]

/-- The `eslintOptions` record built by `parseESLintOptions`. An outer
`none` means the property was never assigned; `some none` means it was
assigned the JS `undefined` (a value token read past the end of the
argument list). -/
structure ESLintOptions where
  fix : Option Bool := none
  overrideConfigFile : Option (Option String) := none
  cache : Option Bool := none
  cacheLocation : Option (Option String) := none
  cacheStrategy : Option (Option String) := none
  errorOnUnmatchedPattern : Option Bool := none
  overrideConfig : Option (List (String × RuleConfig)) := none

/-- `ParsedOptions` from the runner. `format` is `none` when `-f` was the
final token (its value read past the end is `undefined`). -/
structure ParsedOptions where
  eslintOptions : ESLintOptions
  maxWarnings : Option JsNum
  format : Option String
  extensions : List String

/-- The mutable locals of `parseESLintOptions` during its loop. -/
structure ParseState where
  eslintOptions : ESLintOptions
  maxWarnings : Option JsNum
  format : Option String
  extensions : List String
  rules : List (String × RuleConfig)

/-- The initial locals of `parseESLintOptions`. -/
def initParseState : ParseState :=
  { eslintOptions := {}, maxWarnings := none, format := some "stylish",
    extensions := [], rules := [] }

/-- The loop of `parseESLintOptions`: a left-to-right pass dispatching on
the exact token, value options consuming the following token via
`args[++i]`. A value read past the end of the list is JS `undefined`:
assigning it is modelled by `some none` (or `JsNum.nan` for
`--max-warnings`, since `parseInt(undefined, 10)` is `NaN`), while
`--ext`/`--rule` at the very end throw (`undefined.split` /
`undefined.indexOf`), modelled by `none`. -/
def parseLoop (jp : String → Option JsonValue) : ParseState → List String → Option ParseState
  | st, [] => some st
  | st, arg :: rest =>
    if arg == "--fix" then
      parseLoop jp { st with eslintOptions := { st.eslintOptions with fix := some true } } rest
    else if arg == "--fix-dry-run" then
      parseLoop jp { st with eslintOptions := { st.eslintOptions with fix := some true } } rest
    else if arg == "-c" || arg == "--config" then
      match rest with
      | v :: rest2 =>
        parseLoop jp
          { st with eslintOptions := { st.eslintOptions with overrideConfigFile := some (some v) } }
          rest2
      | [] => some { st with eslintOptions := { st.eslintOptions with overrideConfigFile := some none } }
    else if arg == "--cache" then
      parseLoop jp { st with eslintOptions := { st.eslintOptions with cache := some true } } rest
    else if arg == "--no-cache" then
      parseLoop jp { st with eslintOptions := { st.eslintOptions with cache := some false } } rest
    else if arg == "--cache-location" then
      match rest with
      | v :: rest2 =>
        parseLoop jp
          { st with eslintOptions := { st.eslintOptions with cacheLocation := some (some v) } } rest2
      | [] => some { st with eslintOptions := { st.eslintOptions with cacheLocation := some none } }
    else if arg == "--cache-strategy" then
      match rest with
      | v :: rest2 =>
        parseLoop jp
          { st with eslintOptions := { st.eslintOptions with cacheStrategy := some (some v) } } rest2
      | [] => some { st with eslintOptions := { st.eslintOptions with cacheStrategy := some none } }
    else if arg == "--no-error-on-unmatched-pattern" then
      parseLoop jp
        { st with eslintOptions := { st.eslintOptions with errorOnUnmatchedPattern := some false } }
        rest
    else if arg == "--max-warnings" then
      match rest with
      | v :: rest2 => parseLoop jp { st with maxWarnings := some (jsParseInt10 v) } rest2
      | [] => some { st with maxWarnings := some JsNum.nan }
    else if arg == "-f" || arg == "--format" then
      match rest with
      | v :: rest2 => parseLoop jp { st with format := some v } rest2
      | [] => some { st with format := none }
    else if arg == "--ext" then
      match rest with
      | v :: rest2 => parseLoop jp { st with extensions := normalizeExtList v } rest2
      | [] => none
    else if arg == "--rule" then
      match rest with
      | v :: rest2 =>
        match parseRuleValue jp v with
        | some nc => parseLoop jp { st with rules := jsObjectSet st.rules nc.1 nc.2 } rest2
        | none => parseLoop jp st rest2
      | [] => none
    else
      parseLoop jp st rest

/-- `parseESLintOptions` from the runner: run the loop from the initial
state, attach accumulated rules as `overrideConfig` when non-empty, and
fall back to `DEFAULT_EXTENSIONS` when no extensions were set. -/
def parseESLintOptions (jp : String → Option JsonValue) (args : List String) :
    Option ParsedOptions :=
  (parseLoop jp initParseState args).map fun st =>
    { eslintOptions :=
        if st.rules.isEmpty then st.eslintOptions
        else { st.eslintOptions with overrideConfig := some st.rules },
      maxWarnings := st.maxWarnings,
      format := st.format,
      extensions := if st.extensions.isEmpty then DEFAULT_EXTENSIONS else st.extensions }

/-- A concrete stand-in for `JSON.parse` that always fails; used only to
instantiate `jp` in closed statements that never reach the JSON branch. -/
def jpNone : String → Option JsonValue := fun _ => none

/-- The part of an engine lint result the runner inspects: per-file error
and warning counts (everything else is opaque to the core). -/
structure LintResult where
  errorCount : Nat
  warningCount : Nat

/-- `RunResult` from the runner. -/
structure RunResult where
  exitCode : Nat
  output : String
  errorOutput : String

/-- Observable operations of the enhanced path, recorded as a trace:
engine lint calls, progress-bar lifecycle, and fix writing. -/
inductive Event where
  | lintCall (files : List String) : Event
  | progressStart (total : Nat) : Event
  | progressIncrement (n : Nat) : Event
  | progressStop : Event
  | outputFixes : Event
  | warnUnsupported (names : List String) : Event
  | spawnCall (args : List String) : Event

/-- `BATCH_SIZE` from the runner. -/
def BATCH_SIZE : Nat := 20

/-- The batching loop of `runWithAPI`: while files remain, slice off the
next `BATCH_SIZE` files, lint them, append the results to the
accumulator, and advance progress by the batch's length. Returns the
final accumulator and the trace of lint calls and progress increments. -/
def batchLoop (lint : List String → List LintResult) :
    List String → List LintResult → List LintResult × List Event
  | files, acc =>
    if h : files = [] then (acc, [])
    else
      let batch := files.take BATCH_SIZE
      let results := lint batch
      let tail := batchLoop lint (files.drop BATCH_SIZE) (acc ++ results)
      (tail.1, Event.lintCall batch :: Event.progressIncrement batch.length :: tail.2)
termination_by files _ => files.length
decreasing_by
  simp only [List.length_drop]
  exact Nat.sub_lt (List.length_pos.mpr h) (by norm_num [BATCH_SIZE])


/-- The chunk decomposition the batching loop walks: consecutive slices
of `BATCH_SIZE` files. -/
def batches : List String → List (List String)
  | [] => []
  | files@(_ :: _) => files.take BATCH_SIZE :: batches (files.drop BATCH_SIZE)
termination_by files => files.length
decreasing_by
  rename_i heq
  subst heq
  simp only [List.length_drop, List.length_cons, BATCH_SIZE]
  omega

/-- Sum of the progress advances recorded in a trace. -/
def progressTotal (evs : List Event) : Nat :=
  (evs.map (fun e => match e with | Event.progressIncrement n => n | _ => 0)).sum

/-- The external collaborators of the enhanced path, as total functions:
whether the engine module loads and constructs, the glob utility (already
absorbing its failure-to-empty-list behaviour), the engine's ignore
predicate and lint operation, and the loaded formatter for the requested
format name. -/
structure EnginePlatform where
  available : Bool
  glob : List String → List String
  isPathIgnored : String → Bool
  lintFiles : List String → List LintResult
  formatter : Option String → List LintResult → String

/-- `getFilesToLint`'s glob-pattern construction: a pattern containing a
`*` or already ending in a configured extension is used verbatim; any
other pattern expands to one `pattern/**/*ext` glob per extension. -/
def buildGlobPatterns (patterns extensions : List String) : List String :=
  patterns.flatMap fun p =>
    if containsChar p '*' || extensions.any (fun e => e.data.isSuffixOf p.data) then [p]
    else extensions.map (fun e => p ++ "/**/*" ++ e)

/-- Total error count of a result collection
(`results.reduce((sum, r) => sum + r.errorCount, 0)`). -/
def totalErrors (results : List LintResult) : Nat :=
  results.foldl (fun sum r => sum + r.errorCount) 0

/-- Total warning count of a result collection. -/
def totalWarnings (results : List LintResult) : Nat :=
  results.foldl (fun sum r => sum + r.warningCount) 0

/-- `runWithAPI` from the runner, over an abstract platform `P` and
`JSON.parse` model `jp`. `none` is the "use fallback" sentinel (engine
unavailable, or the one modelled in-path throw: `parseESLintOptions` on a
trailing `--ext`/`--rule`). Returns the `RunResult` together with the
trace of engine/progress operations. With no filtered files the engine is
invoked once on the original patterns and no progress bar starts;
otherwise the batching loop runs between a progress start with the total
file count and a stop, followed by fix output when requested. -/
def runWithAPIModel (P : EnginePlatform) (jp : String → Option JsonValue)
    (args : List String) : Option (RunResult × List Event) :=
  if !P.available then none
  else
    match parseESLintOptions jp args with
    | none => none
    | some opts =>
      let patterns := extractPatterns args
      let candidateFiles := P.glob (buildGlobPatterns patterns opts.extensions)
      let files := candidateFiles.filter (fun f => !(P.isPathIgnored f))
      if files.length = 0 then
        let results := P.lintFiles patterns
        some ({ exitCode := calculateExitCode (totalErrors results) (totalWarnings results)
                  opts.maxWarnings,
                output := P.formatter opts.format results,
                errorOutput := "" },
              [Event.lintCall patterns])
      else
        let looped := batchLoop P.lintFiles files []
        let allResults := looped.1
        some ({ exitCode := calculateExitCode (totalErrors allResults) (totalWarnings allResults)
                  opts.maxWarnings,
                output := P.formatter opts.format allResults,
                errorOutput := "" },
              Event.progressStart files.length ::
                looped.2 ++ [Event.progressStop] ++
                  (if opts.eslintOptions.fix = some true then [Event.outputFixes] else []))

/-- `runESLint` from the runner, over the platform, `JSON.parse` model,
and the fallback subprocess `spawnRun` (what `runWithSpawn` resolves to on
a given argument list). Returns the process exit code and the trace of
observable operations: a warning plus full delegation to the spawn when
unsupported options are present; the enhanced path's trace when it
produces a result; otherwise the spawn fallback. -/
def runESLintModel (P : EnginePlatform) (jp : String → Option JsonValue)
    (spawnRun : List String → RunResult) (args : List String) : Nat × List Event :=
  let unsupported := findUnsupportedOptions args
  if unsupported.length > 0 then
    let spawnResult := spawnRun args
    (spawnResult.exitCode, [Event.warnUnsupported unsupported, Event.spawnCall args])
  else
    match runWithAPIModel P jp args with
    | some result => (result.1.exitCode, result.2)
    | none =>
      let spawnResult := spawnRun args
      (spawnResult.exitCode, [Event.spawnCall args])

/-- C1: for all nonnegative error and warning counts and every threshold
state, `calculateExitCode` is 1 exactly when the error count is positive
or a numeric threshold is set and strictly exceeded by the warning count;
it only takes the values 0 and 1; a warning count equal to the threshold
gives 0, and an absent threshold gives 0 whenever there are no errors. -/
theorem calculateExitCode_spec (e w : Nat) (mw : Option JsNum) :
    (calculateExitCode e w mw = 1 ∨ calculateExitCode e w mw = 0)
    ∧ (calculateExitCode e w mw = 1 ↔
        0 < e ∨ ∃ m : Int, mw = some (JsNum.num m) ∧ m < (w : Int))
    ∧ calculateExitCode 0 w (some (JsNum.num (w : Int))) = 0
    ∧ calculateExitCode 0 w none = 0 := by
  have hzero : calculateExitCode 0 w (some (JsNum.num (w : Int))) = 0 := by
    simp [calculateExitCode, jsGtNum]
  have hnone : calculateExitCode 0 w none = 0 := by
    simp [calculateExitCode]
  refine ⟨?_, ?_, hzero, hnone⟩
  · unfold calculateExitCode
    split
    · exact Or.inl rfl
    · split
      · exact Or.inl rfl
      · exact Or.inr rfl
  · rcases mw with _ | m
    · by_cases he : 0 < e <;> simp [calculateExitCode, he]
    · rcases m with _ | n
      · by_cases he : 0 < e <;> simp [calculateExitCode, jsGtNum, he]
      · by_cases he : 0 < e <;>
          by_cases hw : (n : Int) < (w : Int) <;>
            simp [calculateExitCode, jsGtNum, he, hw]

/-- Processing a token in skip state just consumes it. -/
theorem findUOAux_true (l : List String) :
    findUnsupportedOptionsAux true l = findUnsupportedOptionsAux false l.tail := by
  cases l <;> rfl

/-- The loop returns nothing on an exhausted token list, in either state. -/
theorem findUOAux_nil (b : Bool) : findUnsupportedOptionsAux b [] = [] := by
  cases b <;> rfl

/-- One step of the loop in non-skip state, as an explicit equation. -/
theorem findUOAux_cons (arg : String) (rest : List String) :
    findUnsupportedOptionsAux false (arg :: rest) =
      (if !(startsWithChar arg '-') then findUnsupportedOptionsAux false rest
       else
         let name := optionName arg
         if SUPPORTED_FLAGS.contains name then findUnsupportedOptionsAux false rest
         else if SUPPORTED_OPTIONS_WITH_VALUES.contains name then
           findUnsupportedOptionsAux (!(containsChar arg '=')) rest
         else
           name :: findUnsupportedOptionsAux
             (match rest with
              | next :: _ => !(startsWithChar next '-')
              | [] => false) rest) := rfl

/-- One step of the spec recursion on a single remaining token. -/
theorem unsupportedOptionsSpec_one (arg : String) :
    unsupportedOptionsSpec [arg] =
      (if !(startsWithChar arg '-') then []
       else
         let name := optionName arg
         if SUPPORTED_FLAGS.contains name || SUPPORTED_OPTIONS_WITH_VALUES.contains name then []
         else [name]) := rfl

/-- One step of the spec recursion on two or more remaining tokens. -/
theorem unsupportedOptionsSpec_two (arg next : String) (rest : List String) :
    unsupportedOptionsSpec (arg :: next :: rest) =
      (if !(startsWithChar arg '-') then unsupportedOptionsSpec (next :: rest)
       else
         let name := optionName arg
         if SUPPORTED_FLAGS.contains name then unsupportedOptionsSpec (next :: rest)
         else if SUPPORTED_OPTIONS_WITH_VALUES.contains name then
           if containsChar arg '=' then unsupportedOptionsSpec (next :: rest)
           else unsupportedOptionsSpec rest
         else
           if startsWithChar next '-' then name :: unsupportedOptionsSpec (next :: rest)
           else name :: unsupportedOptionsSpec rest) := rfl

/-- The skip-state loop of the source agrees with the two-token spec
recursion, by the spec recursion's own induction principle. -/
theorem findUOAux_eq_spec (l : List String) :
    findUnsupportedOptionsAux false l = unsupportedOptionsSpec l := by
  induction l using unsupportedOptionsSpec.induct with
  | case1 => rfl
  | case2 arg h =>
    rw [findUOAux_cons, unsupportedOptionsSpec_one]
    simp_all [findUOAux_nil]
  | case3 arg h name hm =>
    rw [findUOAux_cons, unsupportedOptionsSpec_one]
    simp_all [findUOAux_nil, findUOAux_true]
    tauto
  | case4 arg h name hm =>
    rw [findUOAux_cons, unsupportedOptionsSpec_one]
    simp_all [findUOAux_nil]
  | case5 arg next rest h ih =>
    rw [findUOAux_cons, unsupportedOptionsSpec_two]
    simp_all
  | case6 arg next rest h name hf ih =>
    rw [findUOAux_cons, unsupportedOptionsSpec_two]
    simp_all
  | case7 arg next rest h name hf hv he ih =>
    rw [findUOAux_cons, unsupportedOptionsSpec_two]
    simp_all
  | case8 arg next rest h name hf hv he ih =>
    rw [findUOAux_cons, unsupportedOptionsSpec_two]
    simp_all [findUOAux_true]
  | case9 arg next rest h name hf hv hn ih =>
    rw [findUOAux_cons, unsupportedOptionsSpec_two]
    simp_all
  | case10 arg next rest h name hf hv hn ih =>
    rw [findUOAux_cons, unsupportedOptionsSpec_two]
    simp_all [findUOAux_true]

/-- C2: `findUnsupportedOptions` agrees with the claim's description (the
two-token spec recursion: names before `=` of dash tokens outside both
vocabularies, in order; a supported option-with-value not in `=value` form
always consumes the next token; an unsupported option consumes the next
token exactly when it is not dash-prefixed; consumed tokens are never
flagged), and the four concrete examples evaluate as stated. -/
theorem findUnsupportedOptions_spec :
    (∀ args : List String, findUnsupportedOptions args = unsupportedOptionsSpec args)
    ∧ findUnsupportedOptions ["--quiet"] = ["--quiet"]
    ∧ findUnsupportedOptions ["--fix", "src"] = []
    ∧ findUnsupportedOptions ["--parser=babel"] = ["--parser"]
    ∧ findUnsupportedOptions ["--config=eslint.config.js"] = [] := by
  refine ⟨?_, by decide, by decide, by decide, by decide⟩
  intro args
  exact findUOAux_eq_spec args

/-- `extractPatterns` unfolded to its wrapper equation. -/
theorem extractPatterns_def (args : List String) :
    extractPatterns args =
      if (extractPatternsAux false args).length > 0 then extractPatternsAux false args
      else ["."] := rfl

/-- `extractPatterns` never produces the empty list (shared helper). -/
theorem extractPatterns_ne_nil (args : List String) : extractPatterns args ≠ [] := by
  cases hp : extractPatternsAux false args with
  | nil => rw [extractPatterns_def, hp]; simp
  | cons a t => rw [extractPatterns_def, hp]; simp

/-- C4: `extractPatterns` never returns an empty sequence; when the loop
leaves no patterns it returns the single current-directory pattern. -/
theorem extractPatterns_nonempty (args : List String) :
    extractPatterns args ≠ []
    ∧ (extractPatternsAux false args = [] → extractPatterns args = ["."]) := by
  refine ⟨extractPatterns_ne_nil args, ?_⟩
  intro hp
  rw [extractPatterns_def, hp]
  simp

/-- Witness for C4 at a concrete input: an argument list with no pattern
tokens yields `["."]`. -/
theorem extractPatterns_nonempty_witness :
    extractPatterns ["--fix"] ≠ [] ∧ extractPatterns ["--fix"] = ["."] :=
  ⟨(extractPatterns_nonempty ["--fix"]).1,
   (extractPatterns_nonempty ["--fix"]).2 (by decide)⟩

/-- The pattern loop and its final skip state compose over concatenation. -/
theorem extractAux_append (pre : List String) :
    ∀ (b : Bool) (post : List String),
      extractPatternsAux b (pre ++ post) =
        extractPatternsAux b pre ++ extractPatternsAux (extractSkipState b pre) post := by
  induction pre with
  | nil =>
    intro b post
    cases b <;> simp [extractPatternsAux, extractSkipState]
  | cons arg rest ih =>
    intro b post
    cases b with
    | true => simpa [extractPatternsAux, extractSkipState] using ih false post
    | false =>
      by_cases hd : startsWithChar arg '-' = true
      · simp [extractPatternsAux, extractSkipState, hd, ih]
      · simp [extractPatternsAux, extractSkipState, hd, ih]

/-- A value-taking option of the broader `optionsWithValues` set consumes
the immediately following token: both disappear from the loop's output. -/
theorem extractAux_consume (t v : String) (post : List String)
    (ht : startsWithChar t '-' = true) (htv : optionsWithValues.contains t = true) :
    extractPatternsAux false (t :: v :: post) = extractPatternsAux false post := by
  have htv' : t ∈ optionsWithValues := by simpa using htv
  simp [extractPatternsAux, ht, htv']

/-- C3 counterexample: in `["--config", "--parser", "babel"]` the
unsupported value-taking option `--parser` is immediately followed by the
non-option token `babel`, yet `babel` appears in the extracted patterns
(the `--config` before it consumed `--parser` as its own value) — and this
input does reach the enhanced path (`findUnsupportedOptions` flags
nothing). -/
theorem extractPatterns_value_skip_counterexample :
    startsWithChar "--parser" '-' = true
    ∧ optionsWithValues.contains "--parser" = true
    ∧ SUPPORTED_FLAGS.contains "--parser" = false
    ∧ SUPPORTED_OPTIONS_WITH_VALUES.contains "--parser" = false
    ∧ startsWithChar "babel" '-' = false
    ∧ findUnsupportedOptions ["--config", "--parser", "babel"] = []
    ∧ extractPatterns ["--config", "--parser", "babel"] = ["babel"] := by decide

/-- C3 amended: for every token sequence `pre ++ [t, v] ++ post` in which
a value-taking option `t` (a member of the broader `optionsWithValues`
set) is immediately followed by a non-option token `v`, and `t` is not
itself consumed as a preceding option's value (processing `pre` leaves no
pending skip), `extractPatterns` treats `v` as the option's value: the
result equals the patterns of `pre ++ post`, with both `t` and `v`
excluded. -/
theorem extractPatterns_value_skip (pre : List String) (t v : String) (post : List String)
    (hpre : extractSkipState false pre = false)
    (ht : startsWithChar t '-' = true)
    (htv : optionsWithValues.contains t = true)
    (hv : startsWithChar v '-' = false) :
    extractPatterns (pre ++ t :: v :: post) = extractPatterns (pre ++ post) := by
  rw [extractPatterns_def, extractPatterns_def,
      extractAux_append, extractAux_append, hpre,
      extractAux_consume t v post ht htv]

/-- Witness for the amended C3 at a concrete input: `--parser babel` in
head position is consumed whole, leaving `src` as the only pattern. -/
theorem extractPatterns_value_skip_witness :
    extractPatterns ["--parser", "babel", "src"] = extractPatterns ["src"]
    ∧ extractPatterns ["--parser", "babel", "src"] = ["src"] := by
  refine ⟨extractPatterns_value_skip [] "--parser" "babel" ["src"]
    (by decide) (by decide) (by decide) (by decide), by decide⟩

/-- One step of `parseLoop` on `--rule` with a value present, exposing
the match on `parseRuleValue`. -/
theorem parseLoop_rule_cons (jp : String → Option JsonValue) (st : ParseState)
    (v : String) (rest2 : List String) :
    parseLoop jp st ("--rule" :: v :: rest2) =
      (match parseRuleValue jp v with
       | some nc => parseLoop jp { st with rules := jsObjectSet st.rules nc.1 nc.2 } rest2
       | none => parseLoop jp st rest2) := rfl

/-- A token matching none of the recognised option cases is skipped by
the parse loop with no state change. -/
theorem parseLoop_other (jp : String → Option JsonValue) (st : ParseState) (arg : String)
    (rest : List String)
    (h1 : ¬arg = "--fix") (h2 : ¬arg = "--fix-dry-run")
    (h3 : ¬arg = "-c") (h4 : ¬arg = "--config")
    (h5 : ¬arg = "--cache") (h6 : ¬arg = "--no-cache")
    (h7 : ¬arg = "--cache-location") (h8 : ¬arg = "--cache-strategy")
    (h9 : ¬arg = "--no-error-on-unmatched-pattern") (h10 : ¬arg = "--max-warnings")
    (h11 : ¬arg = "-f") (h12 : ¬arg = "--format")
    (h13 : ¬arg = "--ext") (h14 : ¬arg = "--rule") :
    parseLoop jp st (arg :: rest) = parseLoop jp st rest := by
  rcases rest with _ | ⟨v, rest2⟩
  · rw [parseLoop.eq_3,
      if_neg (by simp [h1]), if_neg (by simp [h2]), if_neg (by simp [h3, h4]),
      if_neg (by simp [h5]), if_neg (by simp [h6]), if_neg (by simp [h7]),
      if_neg (by simp [h8]), if_neg (by simp [h9]), if_neg (by simp [h10]),
      if_neg (by simp [h11, h12]), if_neg (by simp [h13]), if_neg (by simp [h14])]
  · rw [parseLoop.eq_2,
      if_neg (by simp [h1]), if_neg (by simp [h2]), if_neg (by simp [h3, h4]),
      if_neg (by simp [h5]), if_neg (by simp [h6]), if_neg (by simp [h7]),
      if_neg (by simp [h8]), if_neg (by simp [h9]), if_neg (by simp [h10]),
      if_neg (by simp [h11, h12]), if_neg (by simp [h13]), if_neg (by simp [h14])]

theorem parseLoop_ext_invariant (jp : String → Option JsonValue) :
    ∀ (st : ParseState) (args : List String), "--ext" ∉ args →
      ∀ res : ParseState, parseLoop jp st args = some res →
        res.extensions = st.extensions := by
  intro st args
  induction st, args using parseLoop.induct jp with
  | case1 st =>
    intro hmem res hres
    exact (congrArg ParseState.extensions (Option.some.inj hres)).symm
  | case2 st arg rest h ih =>
    intro hmem res hres
    have he : arg = "--fix" := by simpa using h
    subst he
    rcases rest with _ | ⟨v, rest2⟩ <;>
      exact ih (fun hm => hmem (List.mem_cons_of_mem _ hm)) res hres
  | case3 st arg rest hn1 h ih =>
    intro hmem res hres
    have he : arg = "--fix-dry-run" := by simpa using h
    subst he
    rcases rest with _ | ⟨v, rest2⟩ <;>
      exact ih (fun hm => hmem (List.mem_cons_of_mem _ hm)) res hres
  | case4 st arg hn1 hn2 h next tail ih =>
    intro hmem res hres
    have he : arg = "-c" ∨ arg = "--config" := by simpa using h
    have hmm : "--ext" ∉ tail :=
      fun hm => hmem (List.mem_cons_of_mem _ (List.mem_cons_of_mem _ hm))
    rcases he with he | he <;> subst he <;> exact ih hmm res hres
  | case5 st arg hn1 hn2 h =>
    intro hmem res hres
    have he : arg = "-c" ∨ arg = "--config" := by simpa using h
    rcases he with he | he <;> subst he <;>
      exact (congrArg ParseState.extensions (Option.some.inj hres)).symm
  | case6 st arg rest hn1 hn2 hn3 h ih =>
    intro hmem res hres
    have he : arg = "--cache" := by simpa using h
    subst he
    rcases rest with _ | ⟨v, rest2⟩ <;>
      exact ih (fun hm => hmem (List.mem_cons_of_mem _ hm)) res hres
  | case7 st arg rest hn1 hn2 hn3 hn4 h ih =>
    intro hmem res hres
    have he : arg = "--no-cache" := by simpa using h
    subst he
    rcases rest with _ | ⟨v, rest2⟩ <;>
      exact ih (fun hm => hmem (List.mem_cons_of_mem _ hm)) res hres
  | case8 st arg hn1 hn2 hn3 hn4 hn5 h next tail ih =>
    intro hmem res hres
    have he : arg = "--cache-location" := by simpa using h
    subst he
    exact ih (fun hm => hmem (List.mem_cons_of_mem _ (List.mem_cons_of_mem _ hm))) res hres
  | case9 st arg hn1 hn2 hn3 hn4 hn5 h =>
    intro hmem res hres
    have he : arg = "--cache-location" := by simpa using h
    subst he
    exact (congrArg ParseState.extensions (Option.some.inj hres)).symm
  | case10 st arg hn1 hn2 hn3 hn4 hn5 hn6 h next tail ih =>
    intro hmem res hres
    have he : arg = "--cache-strategy" := by simpa using h
    subst he
    exact ih (fun hm => hmem (List.mem_cons_of_mem _ (List.mem_cons_of_mem _ hm))) res hres
  | case11 st arg hn1 hn2 hn3 hn4 hn5 hn6 h =>
    intro hmem res hres
    have he : arg = "--cache-strategy" := by simpa using h
    subst he
    exact (congrArg ParseState.extensions (Option.some.inj hres)).symm
  | case12 st arg rest hn1 hn2 hn3 hn4 hn5 hn6 hn7 h ih =>
    intro hmem res hres
    have he : arg = "--no-error-on-unmatched-pattern" := by simpa using h
    subst he
    rcases rest with _ | ⟨v, rest2⟩ <;>
      exact ih (fun hm => hmem (List.mem_cons_of_mem _ hm)) res hres
  | case13 st arg hn1 hn2 hn3 hn4 hn5 hn6 hn7 hn8 h next tail ih =>
    intro hmem res hres
    have he : arg = "--max-warnings" := by simpa using h
    subst he
    exact ih (fun hm => hmem (List.mem_cons_of_mem _ (List.mem_cons_of_mem _ hm))) res hres
  | case14 st arg hn1 hn2 hn3 hn4 hn5 hn6 hn7 hn8 h =>
    intro hmem res hres
    have he : arg = "--max-warnings" := by simpa using h
    subst he
    exact (congrArg ParseState.extensions (Option.some.inj hres)).symm
  | case15 st arg hn1 hn2 hn3 hn4 hn5 hn6 hn7 hn8 hn9 h next tail ih =>
    intro hmem res hres
    have he : arg = "-f" ∨ arg = "--format" := by simpa using h
    have hmm : "--ext" ∉ tail :=
      fun hm => hmem (List.mem_cons_of_mem _ (List.mem_cons_of_mem _ hm))
    rcases he with he | he <;> subst he <;> exact ih hmm res hres
  | case16 st arg hn1 hn2 hn3 hn4 hn5 hn6 hn7 hn8 hn9 h =>
    intro hmem res hres
    have he : arg = "-f" ∨ arg = "--format" := by simpa using h
    rcases he with he | he <;> subst he <;>
      exact (congrArg ParseState.extensions (Option.some.inj hres)).symm
  | case17 st arg hn1 hn2 hn3 hn4 hn5 hn6 hn7 hn8 hn9 hn10 h next tail ih =>
    intro hmem res hres
    have he : arg = "--ext" := by simpa using h
    subst he
    exact absurd (List.mem_cons_self _ _) hmem
  | case18 st arg hn1 hn2 hn3 hn4 hn5 hn6 hn7 hn8 hn9 hn10 h =>
    intro hmem res hres
    have he : arg = "--ext" := by simpa using h
    subst he
    exact Option.noConfusion hres
  | case19 st arg hn1 hn2 hn3 hn4 hn5 hn6 hn7 hn8 hn9 hn10 hn11 h next tail nc hmatch ih =>
    intro hmem res hres
    have he : arg = "--rule" := by simpa using h
    subst he
    rw [parseLoop_rule_cons, hmatch] at hres
    exact ih (fun hm => hmem (List.mem_cons_of_mem _ (List.mem_cons_of_mem _ hm))) res hres
  | case20 st arg hn1 hn2 hn3 hn4 hn5 hn6 hn7 hn8 hn9 hn10 hn11 h next tail hmatch ih =>
    intro hmem res hres
    have he : arg = "--rule" := by simpa using h
    subst he
    rw [parseLoop_rule_cons, hmatch] at hres
    exact ih (fun hm => hmem (List.mem_cons_of_mem _ (List.mem_cons_of_mem _ hm))) res hres
  | case21 st arg hn1 hn2 hn3 hn4 hn5 hn6 hn7 hn8 hn9 hn10 hn11 h =>
    intro hmem res hres
    have he : arg = "--rule" := by simpa using h
    subst he
    exact Option.noConfusion hres
  | case22 st arg rest hn1 hn2 hn3 hn4 hn5 hn6 hn7 hn8 hn9 hn10 hn11 hn12 ih =>
    intro hmem res hres
    have e1 : ¬arg = "--fix" := by simpa using hn1
    have e2 : ¬arg = "--fix-dry-run" := by simpa using hn2
    have e34 : ¬arg = "-c" ∧ ¬arg = "--config" := by
      have h3 := hn3; simp only [Bool.or_eq_true, beq_iff_eq] at h3; tauto
    have e5 : ¬arg = "--cache" := by simpa using hn4
    have e6 : ¬arg = "--no-cache" := by simpa using hn5
    have e7 : ¬arg = "--cache-location" := by simpa using hn6
    have e8 : ¬arg = "--cache-strategy" := by simpa using hn7
    have e9 : ¬arg = "--no-error-on-unmatched-pattern" := by simpa using hn8
    have e10 : ¬arg = "--max-warnings" := by simpa using hn9
    have e1112 : ¬arg = "-f" ∧ ¬arg = "--format" := by
      have h10 := hn10; simp only [Bool.or_eq_true, beq_iff_eq] at h10; tauto
    have e13 : ¬arg = "--ext" := by simpa using hn11
    have e14 : ¬arg = "--rule" := by simpa using hn12
    rw [parseLoop_other jp st arg rest e1 e2 e34.1 e34.2 e5 e6 e7 e8 e9 e10
      e1112.1 e1112.2 e13 e14] at hres
    exact ih (fun hm => hmem (List.mem_cons_of_mem _ hm)) res hres

/-- C5 counterexample: the sequence `["--config", "--ext", "js"]` contains
`--ext` followed by a comma-separated list, yet the parsed extensions are
the defaults, not `[".js"]` — `--config` consumed the `--ext` token as its
own value — and the input reaches the enhanced path
(`findUnsupportedOptions` flags nothing). -/
theorem parseESLintOptions_ext_counterexample :
    findUnsupportedOptions ["--config", "--ext", "js"] = []
    ∧ (parseESLintOptions jpNone ["--config", "--ext", "js"]).map (fun o => o.extensions)
        = some DEFAULT_EXTENSIONS
    ∧ DEFAULT_EXTENSIONS ≠ [".js"] := by decide

/-- C5 amended: an occurrence of `--ext` that the parser dispatches on
(not consumed as a preceding option's value) replaces the current
extensions with the comma-split, dot-prefixed list of the following token
(a complete replacement, no merge); when no `--ext` token is parsed, the
extensions are the fixed default list of eight; and the two concrete
examples evaluate as stated. -/
theorem parseESLintOptions_ext_spec :
    (∀ (jp : String → Option JsonValue) (st : ParseState) (v : String) (rest : List String),
        parseLoop jp st ("--ext" :: v :: rest) =
          parseLoop jp { st with extensions := normalizeExtList v } rest)
    ∧ (∀ (jp : String → Option JsonValue) (args : List String), "--ext" ∉ args →
        ∀ po : ParsedOptions, parseESLintOptions jp args = some po →
          po.extensions = DEFAULT_EXTENSIONS)
    ∧ (parseESLintOptions jpNone ["--ext", ".ts,.tsx"]).map (fun o => o.extensions)
        = some [".ts", ".tsx"]
    ∧ (parseESLintOptions jpNone ["--ext", "js,jsx"]).map (fun o => o.extensions)
        = some [".js", ".jsx"] := by
  refine ⟨?_, ?_, by decide, by decide⟩
  · intro jp st v rest
    rfl
  · intro jp args hmem po hpo
    unfold parseESLintOptions at hpo
    cases hps : parseLoop jp initParseState args with
    | none => rw [hps] at hpo; cases hpo
    | some st =>
      rw [hps] at hpo
      have hext := parseLoop_ext_invariant jp initParseState args hmem st hps
      have hpo2 := Option.some.inj hpo
      subst hpo2
      simp only [hext]
      rfl

/-- Witness for the amended C5 at concrete inputs: an argument list with
no `--ext` yields the default extensions. -/
theorem parseESLintOptions_ext_spec_witness :
    (parseESLintOptions jpNone ["--fix"]).map (fun o => o.extensions)
      = some DEFAULT_EXTENSIONS := by
  obtain ⟨po, hpo⟩ : ∃ po, parseESLintOptions jpNone ["--fix"] = some po := ⟨_, rfl⟩
  rw [hpo, Option.map_some',
    parseESLintOptions_ext_spec.2.1 jpNone ["--fix"] (by decide) po hpo]

/-- One assignment step of the `--rule` accumulation: parse the value
token and assign it into the rules object (values without a colon are
skipped). -/
def ruleStep (jp : String → Option JsonValue) (m : List (String × RuleConfig))
    (v : String) : List (String × RuleConfig) :=
  match parseRuleValue jp v with
  | some nc => jsObjectSet m nc.1 nc.2
  | none => m

/-- The rule-overrides mapping accumulated from a list of `--rule` value
tokens, last write per rule name winning. -/
def rulesOfValues (jp : String → Option JsonValue) (vs : List String) :
    List (String × RuleConfig) :=
  vs.foldl (ruleStep jp) []

/-- Running the parse loop over a pure sequence of `--rule` occurrences
accumulates exactly the fold of `parseRuleValue` assignments into the
rules object, leaving the rest of the state unchanged. -/
theorem parseLoop_rules_flatMap (jp : String → Option JsonValue) (vs : List String) :
    ∀ st : ParseState,
      parseLoop jp st (vs.flatMap (fun v => ["--rule", v])) =
        some { st with rules := vs.foldl (ruleStep jp) st.rules } := by
  induction vs with
  | nil => intro st; rfl
  | cons v vs ih =>
    intro st
    rw [show (v :: vs).flatMap (fun v => ["--rule", v]) =
        "--rule" :: v :: vs.flatMap (fun v => ["--rule", v]) from rfl]
    rw [parseLoop_rule_cons]
    cases hrv : parseRuleValue jp v with
    | some nc =>
      rw [List.foldl_cons]
      rw [show ruleStep jp st.rules v = jsObjectSet st.rules nc.1 nc.2 by
        unfold ruleStep; rw [hrv]]
      exact ih { st with rules := jsObjectSet st.rules nc.1 nc.2 }
    | none =>
      rw [List.foldl_cons]
      rw [show ruleStep jp st.rules v = st.rules by unfold ruleStep; rw [hrv]]
      exact ih st

/-- C6: over any token sequence of `--rule` occurrences, the parsed
options carry a rule-overrides mapping equal to the in-order fold of
`parseRuleValue` assignments (split at the first colon; `[`-configs
JSON-parsed with raw-string fallback; off/warn/error mapped to 0/1/2;
integer parse with raw-string fallback; last write per rule name wins;
attached only when non-empty), and the concrete examples evaluate as
stated, including last-write-wins for a repeated name. -/
theorem parseESLintOptions_rule_spec :
    (∀ (jp : String → Option JsonValue) (vs : List String),
        (parseESLintOptions jp (vs.flatMap (fun v => ["--rule", v]))).map
            (fun o => o.eslintOptions.overrideConfig)
          = some (if (rulesOfValues jp vs).isEmpty then none
                  else some (rulesOfValues jp vs)))
    ∧ (parseESLintOptions jpNone ["--rule", "no-console:2"]).map
          (fun o => o.eslintOptions.overrideConfig)
        = some (some [("no-console", RuleConfig.num 2)])
    ∧ (parseESLintOptions jpNone ["--rule", "no-debugger:error"]).map
          (fun o => o.eslintOptions.overrideConfig)
        = some (some [("no-debugger", RuleConfig.num 2)])
    ∧ (parseESLintOptions jpNone ["--rule", "a:1", "--rule", "b:2"]).map
          (fun o => o.eslintOptions.overrideConfig)
        = some (some [("a", RuleConfig.num 1), ("b", RuleConfig.num 2)])
    ∧ (parseESLintOptions jpNone ["--rule", "a:1", "--rule", "a:2"]).map
          (fun o => o.eslintOptions.overrideConfig)
        = some (some [("a", RuleConfig.num 2)]) := by
  refine ⟨?_, rfl, rfl, rfl, rfl⟩
  intro jp vs
  unfold parseESLintOptions
  rw [parseLoop_rules_flatMap jp vs initParseState]
  rw [show List.foldl (ruleStep jp) initParseState.rules vs = rulesOfValues jp vs from rfl]
  by_cases hE : (rulesOfValues jp vs).isEmpty <;>
    simp [hE, initParseState]

/-- The chunk decomposition concatenates back to the original list: every
file is covered exactly once, in order. -/
theorem batches_join (files : List String) : (batches files).flatten = files := by
  induction files using batches.induct with
  | case1 => rw [batches]; rfl
  | case2 head tail ih =>
    rw [batches, List.flatten_cons, ih]
    exact List.take_append_drop BATCH_SIZE (head :: tail)

/-- Every chunk is non-empty and holds at most `BATCH_SIZE` files. -/
theorem batches_mem (files : List String) :
    ∀ b ∈ batches files, b ≠ [] ∧ b.length ≤ BATCH_SIZE := by
  induction files using batches.induct with
  | case1 => rw [batches]; intro b hb; cases hb
  | case2 head tail ih =>
    rw [batches]
    intro b hb
    rcases List.mem_cons.mp hb with hb | hb
    · subst hb
      refine ⟨by simp [BATCH_SIZE], ?_⟩
      simpa using List.length_take_le BATCH_SIZE (head :: tail)
    · exact ih b hb

/-- The batching loop's accumulator ends as the initial accumulator
followed by the in-order concatenation of the lint results per chunk. -/
theorem batchLoop_results (lint : List String → List LintResult) :
    ∀ (files : List String) (acc : List LintResult),
      (batchLoop lint files acc).1 = acc ++ ((batches files).map lint).flatten := by
  intro files
  induction files using batches.induct with
  | case1 => intro acc; rw [batchLoop, batches]; simp
  | case2 head tail ih =>
    intro acc
    rw [batchLoop, dif_neg (by simp), batches]
    simp only [List.map_cons, List.flatten_cons]
    rw [ih (acc ++ lint ((head :: tail).take BATCH_SIZE))]
    simp [List.append_assoc]

/-- The progress increments recorded by the batching loop sum to the
number of files processed. -/
theorem batchLoop_progress (lint : List String → List LintResult) :
    ∀ (files : List String) (acc : List LintResult),
      progressTotal (batchLoop lint files acc).2 = files.length := by
  intro files
  induction files using batches.induct with
  | case1 => intro acc; rw [batchLoop]; simp [progressTotal]
  | case2 head tail ih =>
    intro acc
    rw [batchLoop, dif_neg (by simp)]
    simp only [progressTotal, List.map_cons, List.sum_cons]
    have hr := ih (acc ++ lint ((head :: tail).take BATCH_SIZE))
    simp only [progressTotal] at hr
    rw [hr]
    simp only [List.length_take, List.length_drop, List.length_cons]
    omega

/-- C7: for every non-empty file list and every engine lint behaviour, the
batching loop walks consecutive chunks of at most `BATCH_SIZE = 20` files
that concatenate back to the file list exactly once in order; the
accumulated results equal the in-order concatenation of the lint results
per chunk (each file linted exactly once), and the progress increments sum
to the total file count. -/
theorem batchLoop_spec (lint : List String → List LintResult) (files : List String)
    (hne : files ≠ []) :
    BATCH_SIZE = 20
    ∧ (batches files).flatten = files
    ∧ (∀ b ∈ batches files, b ≠ [] ∧ b.length ≤ BATCH_SIZE)
    ∧ (batchLoop lint files []).1 = ((batches files).map lint).flatten
    ∧ progressTotal (batchLoop lint files []).2 = files.length :=
  ⟨rfl, batches_join files, batches_mem files,
   by rw [batchLoop_results lint files []]; simp,
   batchLoop_progress lint files []⟩

/-- A concrete lint behaviour used to instantiate witnesses. -/
def lintLen : List String → List LintResult :=
  fun fs => fs.map (fun f => { errorCount := f.length, warningCount := 0 })

/-- Witness for C7 at a concrete non-empty input. -/
theorem batchLoop_spec_witness :
    (["a", "b"] : List String) ≠ []
    ∧ (BATCH_SIZE = 20
       ∧ (batches ["a", "b"]).flatten = ["a", "b"]
       ∧ (∀ b ∈ batches ["a", "b"], b ≠ [] ∧ b.length ≤ BATCH_SIZE)
       ∧ (batchLoop lintLen ["a", "b"] []).1 = ((batches ["a", "b"]).map lintLen).flatten
       ∧ progressTotal (batchLoop lintLen ["a", "b"] []).2 = (["a", "b"] : List String).length) :=
  ⟨by decide, batchLoop_spec lintLen ["a", "b"] (by decide)⟩

/-- C8: whenever the filtered candidate file list is empty, the enhanced
path returns a result whose output formats the engine's single lint run
over the original extracted patterns, whose exit code is computed from
that run's aggregated counts, and whose trace is exactly one lint call on
the patterns — no progress-bar start, no increments, no batching; and the
patterns passed are never the empty list. -/
theorem runWithAPI_empty_spec (P : EnginePlatform) (jp : String → Option JsonValue)
    (args : List String) (opts : ParsedOptions)
    (hav : P.available = true)
    (hopts : parseESLintOptions jp args = some opts)
    (hempty : (P.glob (buildGlobPatterns (extractPatterns args) opts.extensions)).filter
        (fun f => !(P.isPathIgnored f)) = []) :
    runWithAPIModel P jp args =
      some ({ exitCode := calculateExitCode (totalErrors (P.lintFiles (extractPatterns args)))
                (totalWarnings (P.lintFiles (extractPatterns args))) opts.maxWarnings,
              output := P.formatter opts.format (P.lintFiles (extractPatterns args)),
              errorOutput := "" },
            [Event.lintCall (extractPatterns args)])
    ∧ extractPatterns args ≠ [] := by
  refine ⟨?_, extractPatterns_ne_nil args⟩
  simp only [runWithAPIModel, hav, Bool.not_true, Bool.false_eq_true, if_false, hopts]
  rw [hempty]
  rfl

/-- A trivial concrete platform used to instantiate witnesses. -/
def P0 : EnginePlatform :=
  { available := true, glob := fun _ => [], isPathIgnored := fun _ => false,
    lintFiles := fun _ => [], formatter := fun _ _ => "" }

/-- Witness for C8 at a concrete input with no matching files. -/
theorem runWithAPI_empty_spec_witness :
    runWithAPIModel P0 jpNone [] =
      some ({ exitCode := 0, output := "", errorOutput := "" }, [Event.lintCall ["."]])
    ∧ extractPatterns ([] : List String) ≠ [] := by
  have hpo : parseESLintOptions jpNone [] =
      some { eslintOptions := {}, maxWarnings := none, format := some "stylish",
             extensions := DEFAULT_EXTENSIONS } := rfl
  have h := runWithAPI_empty_spec P0 jpNone [] _ rfl hpo rfl
  refine ⟨?_, h.2⟩
  rw [h.1]
  rfl

/-- C9: whenever `findUnsupportedOptions` flags anything, the run writes
the unsupported-options warning and delegates the whole invocation to the
spawn fallback: the exit code is the subprocess's exit code and the trace
holds exactly the warning and the spawn call — the enhanced path's engine
and progress operations never appear. -/
theorem runESLint_unsupported_spec (P : EnginePlatform) (jp : String → Option JsonValue)
    (spawnRun : List String → RunResult) (args : List String)
    (hun : findUnsupportedOptions args ≠ []) :
    runESLintModel P jp spawnRun args =
      ((spawnRun args).exitCode,
       [Event.warnUnsupported (findUnsupportedOptions args), Event.spawnCall args])
    ∧ (∀ fs, Event.lintCall fs ∉ (runESLintModel P jp spawnRun args).2)
    ∧ (∀ n, Event.progressStart n ∉ (runESLintModel P jp spawnRun args).2) := by
  have hlen : (findUnsupportedOptions args).length > 0 := List.length_pos.mpr hun
  have h1 : runESLintModel P jp spawnRun args =
      ((spawnRun args).exitCode,
       [Event.warnUnsupported (findUnsupportedOptions args), Event.spawnCall args]) := by
    simp only [runESLintModel]
    rw [if_pos hlen]
  refine ⟨h1, ?_, ?_⟩
  · intro fs; rw [h1]; simp
  · intro n; rw [h1]; simp

/-- A concrete fallback subprocess behaviour used for witnesses. -/
def spawn0 : List String → RunResult :=
  fun _ => { exitCode := 7, output := "", errorOutput := "" }

/-- Witness for C9 at a concrete unsupported option. -/
theorem runESLint_unsupported_spec_witness :
    runESLintModel P0 jpNone spawn0 ["--quiet"] =
      (7, [Event.warnUnsupported ["--quiet"], Event.spawnCall ["--quiet"]]) := by
  have h := runESLint_unsupported_spec P0 jpNone spawn0 ["--quiet"] (by decide)
  rw [h.1]
  rfl

/-- C10 counterexample: in `["-c", "--config=x", "y"]` the supported
`=value`-form token `--config=x` is consumed as the value of the
preceding `-c`, so removing it changes the parsed options — yet
`findUnsupportedOptions` flags nothing, so the enhanced path is taken. -/
theorem parse_eq_form_counterexample :
    findUnsupportedOptions ["-c", "--config=x", "y"] = []
    ∧ (parseESLintOptions jpNone ["-c", "--config=x", "y"]).map
        (fun o => o.eslintOptions.overrideConfigFile) = some (some (some "--config=x"))
    ∧ (parseESLintOptions jpNone ["-c", "y"]).map
        (fun o => o.eslintOptions.overrideConfigFile) = some (some (some "y"))
    ∧ parseESLintOptions jpNone ["-c", "--config=x", "y"] ≠ parseESLintOptions jpNone ["-c", "y"] := by
  refine ⟨by decide, rfl, rfl, ?_⟩
  intro h
  have h2 := congrArg (Option.map (fun o => o.eslintOptions.overrideConfigFile)) h
  rw [show (parseESLintOptions jpNone ["-c", "--config=x", "y"]).map
      (fun o => o.eslintOptions.overrideConfigFile) = some (some (some "--config=x")) from rfl,
    show (parseESLintOptions jpNone ["-c", "y"]).map
      (fun o => o.eslintOptions.overrideConfigFile) = some (some (some "y")) from rfl] at h2
  exact absurd h2 (by decide)

/-- C10 amended: a supported option in `--name=value` form that the
classifier or parser actually dispatches on (it is not consumed as a
preceding option's value) is never flagged by `findUnsupportedOptions`,
and `parseESLintOptions` ignores it entirely: from any parser state, the
result over `tok :: rest` equals the result over `rest`. -/
theorem parse_eq_form_skipped_spec (tok : String)
    (hca : containsChar tok '=' = true)
    (hm : SUPPORTED_FLAGS.contains (optionName tok) = true
          ∨ SUPPORTED_OPTIONS_WITH_VALUES.contains (optionName tok) = true)
    (hd : startsWithChar tok '-' = true) :
    (∀ rest : List String, findUnsupportedOptions (tok :: rest) = findUnsupportedOptions rest)
    ∧ (∀ (jp : String → Option JsonValue) (st : ParseState) (rest : List String),
        parseLoop jp st (tok :: rest) = parseLoop jp st rest)
    ∧ (∀ (jp : String → Option JsonValue) (rest : List String),
        parseESLintOptions jp (tok :: rest) = parseESLintOptions jp rest) := by
  have mk : ∀ L : String, containsChar L '=' = false → ¬tok = L := by
    intro L hL heq
    subst heq
    rw [hca] at hL
    cases hL
  have hb : ∀ (jp : String → Option JsonValue) (st : ParseState) (rest : List String),
      parseLoop jp st (tok :: rest) = parseLoop jp st rest := by
    intro jp st rest
    exact parseLoop_other jp st tok rest
      (mk "--fix" (by decide)) (mk "--fix-dry-run" (by decide))
      (mk "-c" (by decide)) (mk "--config" (by decide))
      (mk "--cache" (by decide)) (mk "--no-cache" (by decide))
      (mk "--cache-location" (by decide)) (mk "--cache-strategy" (by decide))
      (mk "--no-error-on-unmatched-pattern" (by decide)) (mk "--max-warnings" (by decide))
      (mk "-f" (by decide)) (mk "--format" (by decide))
      (mk "--ext" (by decide)) (mk "--rule" (by decide))
  refine ⟨?_, hb, ?_⟩
  · intro rest
    show findUnsupportedOptionsAux false (tok :: rest) = findUnsupportedOptionsAux false rest
    rw [findUOAux_cons]
    rcases hm with hm | hm
    · simp [hd, hm]
      intro hx
      exact absurd (by simpa using hm) hx
    · simp [hd, hm, hca]
      intro hx1 hx2
      exact absurd (by simpa using hm) hx2
  · intro jp rest
    unfold parseESLintOptions
    rw [hb jp initParseState rest]

/-- Witness for the amended C10 at a concrete input: a supported
`=value`-form config token in dispatch position is neither flagged nor
applied. -/
theorem parse_eq_form_skipped_spec_witness :
    findUnsupportedOptions ["--config=eslint.config.js", "src"] = findUnsupportedOptions ["src"]
    ∧ parseESLintOptions jpNone ["--config=eslint.config.js", "src"]
        = parseESLintOptions jpNone ["src"] := by
  have h := parse_eq_form_skipped_spec "--config=eslint.config.js"
    (by decide) (Or.inr (by decide)) (by decide)
  exact ⟨h.1 ["src"], h.2.2 jpNone ["src"]⟩
